import Mathlib

/-!
Verification of the hooklab in-memory state and decision engine
(`app.go`): event log, response-config store, rule store, rule
evaluator and subscriber hub.

Modelling conventions:
* Go maps (`map[string]V`) are modelled as association lists with
  unique keys (`mapLookup` / `mapInsert`).
* `interface{}` JSON values are modelled by the inductive `JVal`.
* `time.Now()` is passed in explicitly as a `Nat` tick.
* The `*http.Request` argument of `storeEvent` is passed as its
  `method`, `path` and `headers` projections.
* Go channels of capacity 1 (`make(chan Event, 1)`) are modelled as
  `Option Event` mailboxes: `none` is an empty buffer, `some e` one
  undelivered event.  `select { case ch <- e: default: }` is the
  `trySend` function.
* `sort.Slice` / `sort.Strings` are modelled with `List.insertionSort`
  (a sorted permutation; Go's `sort.Slice` leaves the relative order
  of equal-priority rules unspecified, and the spec makes no promise
  about tie order either).
* The `expr` condition language is an external dependency, so it is
  modelled as a pluggable evaluator (a compile function and a run
  function over an abstract program type), exactly as the spec's
  design notes prescribe; `json.Unmarshal` for the request body is
  likewise a parameter `parseJson`.
-/

set_option linter.unusedVariables false

namespace Hooklab

/-- JSON-like value, the model of Go `interface{}` values decoded from
JSON (`Rule.Response`, `ResponseConfig.Response`, the parsed body). -/
inductive JVal where
  | null
  | bool (b : Bool)
  | num (n : Int)
  | str (s : String)
  | arr (elems : List JVal)
  | obj (fields : List (String × JVal))

/-- HTTP headers, Go `map[string][]string` (`http.Header`). -/
abbrev Headers := List (String × List String)

/-- Event record from `app.go`. -/
structure Event where
  id : Nat
  timestamp : Nat
  method : String
  path : String
  key : String
  headers : Headers
  body : String
deriving DecidableEq

/-- ResponseConfig record from `app.go`. -/
structure ResponseConfig where
  response : JVal
  responseRaw : String
  statusCode : Int

/-- Rule record from `app.go`. -/
structure Rule where
  id : String
  name : String
  condition : String
  response : JVal
  statusCode : Int
  priority : Int
  enabled : Bool

/-- Lookup in an association-list model of a Go map. -/
def mapLookup {α : Type} (m : List (String × α)) (k : String) : Option α :=
  match m with
  | [] => none
  | (k2, v) :: rest => if k2 = k then some v else mapLookup rest k

/-- Insert/overwrite in an association-list model of a Go map. -/
def mapInsert {α : Type} (m : List (String × α)) (k : String) (v : α) :
    List (String × α) :=
  match m with
  | [] => [(k, v)]
  | (k2, v2) :: rest =>
    if k2 = k then (k, v) :: rest else (k2, v2) :: mapInsert rest k v

/-- App state from `app.go`.  Subscriber channels are capacity-1
mailboxes (`Option Event`). -/
structure App where
  responses : List (String × ResponseConfig)
  rules : List (String × List Rule)
  events : List Event
  lastID : Nat
  ruleLastID : Nat
  subscribers : List (Option Event)

/-- Zero-value `App`, the state at process start. -/
def freshApp : App :=
  { responses := [], rules := [], events := [], lastID := 0,
    ruleLastID := 0, subscribers := [] }

/-- Capacity of the event log (`const maxEvents = 50`). -/
def maxEvents : Nat := 50

/-- storeEvent from `app.go`: assign the next ID, stamp the time,
prepend, truncate to `maxEvents`, return the stored event. -/
def storeEvent (a : App) (method path : String) (headers : Headers)
    (key body : String) (now : Nat) : App × Event :=
  let newID := a.lastID + 1
  let event : Event :=
    { id := newID, timestamp := now, method := method, path := path,
      key := key, headers := headers, body := body }
  let events := event :: a.events
  let events := if events.length > maxEvents then events.take maxEvents else events
  ({ a with lastID := newID, events := events }, event)

/-- Hardcoded fallback config of `getResponseConfig`
(`{"result":"ok"}` with status 200; `ResponseRaw` is the Go zero
value). -/
def fallbackConfig : ResponseConfig :=
  { response := .obj [("result", .str "ok")], responseRaw := "", statusCode := 200 }

/-- getResponseConfig from `app.go`: key, then "default", then the
hardcoded fallback.  (The lazy `make` of the nil map in the Go code
does not affect the returned value.) -/
def getResponseConfig (a : App) (key : String) : ResponseConfig :=
  match mapLookup a.responses key with
  | some config => config
  | none =>
    match mapLookup a.responses "default" with
    | some defaultConfig => defaultConfig
    | none => fallbackConfig

/-- setResponseConfig from `app.go`: empty key is normalized to
"default"; unconditional overwrite. -/
def setResponseConfig (a : App) (key : String) (config : ResponseConfig) : App :=
  let key := if key = "" then "default" else key
  { a with responses := mapInsert a.responses key config }

/-- addSubscriber from `app.go`: register a fresh capacity-1 channel
with an empty buffer; the returned index is the channel handle. -/
def addSubscriber (a : App) : App × Nat :=
  ({ a with subscribers := a.subscribers ++ [none] }, a.subscribers.length)

/-- Nonblocking send `select { case ch <- event: default: }` on a
capacity-1 channel: deliver into an empty buffer, drop when full. -/
def trySend (ch : Option Event) (event : Event) : Option Event :=
  match ch with
  | none => some event
  | some pending => some pending

/-- broadcastEvent from `app.go`: a nonblocking send to every
registered subscriber. -/
def broadcastEvent (a : App) (event : Event) : App :=
  { a with subscribers := a.subscribers.map (fun ch => trySend ch event) }

/-- Executable lexicographic strict comparison of character lists, the
model of Go string `<` used by `sort.Strings`. -/
def strLtB : List Char → List Char → Bool
  | [], [] => false
  | [], _ :: _ => true
  | _ :: _, [] => false
  | c1 :: r1, c2 :: r2 =>
    if c1 < c2 then true else if c2 < c1 then false else strLtB r1 r2

/-- Executable string comparison `s1 <= s2`. -/
def strLeB (s1 s2 : String) : Bool := !(strLtB s2.data s1.data)

/-- Propositional form of `strLeB`, the sorting relation of
`sort.Strings`. -/
def strLe (s1 s2 : String) : Prop := strLeB s1 s2 = true

instance : DecidableRel strLe := fun s1 s2 => inferInstanceAs (Decidable (_ = true))

/-- Sorting relation of `sort.Slice(..., priority <)` in `getRules`. -/
def ruleLE (r1 r2 : Rule) : Prop := r1.priority ≤ r2.priority

instance : DecidableRel ruleLE := fun r1 r2 => Int.decLe _ _

/-- getKeys from `app.go`: the deduplicated union of event keys,
response-config keys and rule keys plus "default", sorted ascending
(`sort.Strings`). -/
def getKeys (a : App) : List String :=
  let keySet :=
    ((a.events.map Event.key) ++ (a.responses.map Prod.fst) ++
      (a.rules.map Prod.fst) ++ ["default"]).dedup
  List.insertionSort strLe keySet

/-- getRules from `app.go`: the key's rules sorted ascending by
priority (`sort.Slice`); absent key yields `[]`. -/
def getRules (a : App) (key : String) : List Rule :=
  let rules := (mapLookup a.rules key).getD []
  List.insertionSort ruleLE rules

/-- setRules from `app.go`: wholesale replacement of a key's rule
list. -/
def setRules (a : App) (key : String) (rules : List Rule) : App :=
  { a with rules := mapInsert a.rules key rules }

/-- Rule ID assigned by `addRule`: `fmt.Sprintf("rule_%d", n)`. -/
def mkRuleID (n : Nat) : String := "rule_" ++ toString n

/-- addRule from `app.go`: bump the counter, overwrite the rule's ID
with `rule_<counter>`, append to the key's list, return the stored
rule. -/
def addRule (a : App) (key : String) (rule : Rule) : App × Rule :=
  let newLast := a.ruleLastID + 1
  let stored := { rule with id := mkRuleID newLast }
  let existing := (mapLookup a.rules key).getD []
  ({ a with ruleLastID := newLast,
            rules := mapInsert a.rules key (existing ++ [stored]) }, stored)

/-- Loop body of `updateRule`: replace the first rule whose ID matches,
keeping that ID; `none` when no rule matches. -/
def updateList (rules : List Rule) (ruleID : String) (updated : Rule) :
    Option (List Rule) :=
  match rules with
  | [] => none
  | r :: rest =>
    if r.id = ruleID then some ({ updated with id := ruleID } :: rest)
    else (updateList rest ruleID updated).map (fun rest2 => r :: rest2)

/-- updateRule from `app.go`: replace every field except the ID of the
first rule with the given ID; report whether one was found. -/
def updateRule (a : App) (key ruleID : String) (updated : Rule) : App × Bool :=
  let rules := (mapLookup a.rules key).getD []
  match updateList rules ruleID updated with
  | some rules2 => ({ a with rules := mapInsert a.rules key rules2 }, true)
  | none => (a, false)

/-- Loop body of `deleteRule`: remove the first rule whose ID matches;
`none` when no rule matches. -/
def deleteList (rules : List Rule) (ruleID : String) : Option (List Rule) :=
  match rules with
  | [] => none
  | r :: rest =>
    if r.id = ruleID then some rest
    else (deleteList rest ruleID).map (fun rest2 => r :: rest2)

/-- deleteRule from `app.go`: remove the first rule with the given ID;
report whether one was found. -/
def deleteRule (a : App) (key ruleID : String) : App × Bool :=
  let rules := (mapLookup a.rules key).getD []
  match deleteList rules ruleID with
  | some rules2 => ({ a with rules := mapInsert a.rules key rules2 }, true)
  | none => (a, false)

/-- Evaluation environment built by `evaluateRules`: the Go map
`{"body": bodyData, "method": method, "headers": headers}`. -/
structure Env where
  body : JVal
  method : String
  headers : Headers

/-- Body preprocessing of `evaluateRules`: an empty body is left as the
nil interface value (`JVal.null`); a nonempty body is parsed as JSON,
and on parse failure used as its raw string. -/
def computeBodyData (parseJson : String → Option JVal) (body : String) : JVal :=
  if body = "" then .null
  else
    match parseJson body with
    | some v => v
    | none => .str body

/-- Environment construction of `evaluateRules`. -/
def buildEnv (parseJson : String → Option JVal) (body method : String)
    (headers : Headers) : Env :=
  { body := computeBodyData parseJson body, method := method, headers := headers }

/-- Loop of `evaluateRules` over the priority-sorted rules: skip
disabled rules; skip rules whose condition fails to compile or whose
run raises; return the first rule whose condition evaluates to the
boolean `true`.  The second component is the Go `error` result. -/
def evalRulesLoop {Prog : Type}
    (compile : String → Env → Except String Prog)
    (run : Prog → Env → Except String JVal) (env : Env) :
    List Rule → Option ResponseConfig × Option String
  | [] => (none, none)
  | rule :: rest =>
    if !rule.enabled then evalRulesLoop compile run env rest
    else
      match compile rule.condition env with
      | .error _ => evalRulesLoop compile run env rest
      | .ok prog =>
        match run prog env with
        | .error _ => evalRulesLoop compile run env rest
        | .ok result =>
          match result with
          | .bool true =>
            (some { response := rule.response, responseRaw := "",
                    statusCode := rule.statusCode }, none)
          | _ => evalRulesLoop compile run env rest

/-- evaluateRules from `app.go`, parameterized by the JSON parser and
the expression-language implementation (`expr.Compile` with
`expr.AsBool`, and `expr.Run`). -/
def evaluateRules {Prog : Type}
    (parseJson : String → Option JVal)
    (compile : String → Env → Except String Prog)
    (run : Prog → Env → Except String JVal)
    (a : App) (key body method : String) (headers : Headers) :
    Option ResponseConfig × Option String :=
  evalRulesLoop compile run (buildEnv parseJson body method headers) (getRules a key)

/-- Tiny concrete expression language used for concrete test states:
a program is its source text; "true" and "false" evaluate to the
booleans, "method" to the request method, the text "bad(" fails to
compile, and everything else raises at run time. -/
def demoCompile (cond : String) (env : Env) : Except String String :=
  if cond = "bad(" then .error "unexpected token" else .ok cond

/-- Run function of the tiny concrete expression language. -/
def demoRun (prog : String) (env : Env) : Except String JVal :=
  if prog = "true" then .ok (.bool true)
  else if prog = "false" then .ok (.bool false)
  else if prog = "method" then .ok (.str env.method)
  else .error "runtime error"

/-- Tiny concrete JSON parser used for concrete test states: it
recognizes just the literals needed by the examples and rejects
everything else (in particular the empty string, which is not valid
JSON). -/
def demoParseJson (s : String) : Option JVal :=
  if s = "null" then some .null
  else if s = "true" then some (.bool true)
  else if s = "42" then some (.num 42)
  else none

/-- Arguments of one `storeEvent` call: the request projections, the
key, the body and the clock reading. -/
structure StoreInput where
  method : String
  path : String
  headers : Headers
  key : String
  body : String
  now : Nat

/-- Fold of successive `storeEvent` calls, also returning the stored
events in call order. -/
def storeMany (a : App) : List StoreInput → App × List Event
  | [] => (a, [])
  | inp :: rest =>
    let res := storeEvent a inp.method inp.path inp.headers inp.key inp.body inp.now
    let res2 := storeMany res.1 rest
    (res2.1, res.2 :: res2.2)

/-- Rule-store mutation: the operations whose sequences the rule-ID
uniqueness invariant quantifies over. -/
inductive RuleOp where
  | add (key : String) (rule : Rule)
  | update (key : String) (ruleID : String) (rule : Rule)
  | delete (key : String) (ruleID : String)

/-- Application of one rule-store operation, keeping only the state. -/
def applyRuleOp (a : App) : RuleOp → App
  | .add key rule => (addRule a key rule).1
  | .update key ruleID rule => (updateRule a key ruleID rule).1
  | .delete key ruleID => (deleteRule a key ruleID).1

/-- Application of a sequence of rule-store operations. -/
def applyRuleOps (a : App) : List RuleOp → App
  | [] => a
  | op :: rest => applyRuleOps (applyRuleOp a op) rest

/-- IDs assigned by the `addRule` calls of an operation sequence, in
call order. -/
def assignedIDs (a : App) : List RuleOp → List String
  | [] => []
  | op :: rest =>
    match op with
    | .add key rule => (addRule a key rule).2.id :: assignedIDs (applyRuleOp a op) rest
    | _ => assignedIDs (applyRuleOp a op) rest

/-- Every rule ID present in the rule store, per map entry in order. -/
def allRuleIDs (a : App) : List String :=
  (a.rules.map (fun e => e.2.map Rule.id)).flatten

/-- Big-endian decimal digit list of a natural number, the structural
counterpart of `Nat.toDigits 10`. -/
def decDigits (n : Nat) : List Char :=
  if h : n < 10 then [Nat.digitChar n]
  else decDigits (n / 10) ++ [Nat.digitChar (n % 10)]
decreasing_by exact Nat.div_lt_self (by omega) (by omega)

/-- Decimal evaluation of a digit list, a left inverse of
`decDigits`. -/
def evalDigits (l : List Char) : Nat :=
  l.foldl (fun acc c => acc * 10 + (c.toNat - 48)) 0

/-! Concrete demo states used to exercise the theorems on closed
inputs. -/

/-- Sample response configuration. -/
def demoConfig : ResponseConfig :=
  { response := .str "demo", responseRaw := "d", statusCode := 201 }

/-- Sample rule (ID empty: `addRule` overwrites it). -/
def demoRule : Rule :=
  { id := "", name := "r1", condition := "true", response := .str "matched",
    statusCode := 418, priority := 10, enabled := true }

/-- Unconditionally-true enabled rule with priority 10. -/
def demoRuleHigh : Rule :=
  { id := "", name := "high", condition := "true", response := .str "high",
    statusCode := 200, priority := 10, enabled := true }

/-- Unconditionally-true enabled rule with priority 1. -/
def demoRuleLow : Rule :=
  { id := "", name := "low", condition := "true", response := .str "low",
    statusCode := 201, priority := 1, enabled := true }

/-- App holding the two unconditionally-true rules with priorities
[10, 1] under "default". -/
def demoTwoRuleApp : App :=
  (addRule (addRule freshApp "default" demoRuleHigh).1 "default" demoRuleLow).1

/-- Sample event. -/
def demoEvent : Event :=
  { id := 1, timestamp := 0, method := "POST", path := "/webhook/x", key := "x",
    headers := [], body := "b1" }

/-- Second sample event. -/
def demoEvent2 : Event :=
  { demoEvent with id := 2, body := "b2" }

/-- App with two subscribers: one full buffer, one empty. -/
def demoSubsApp : App :=
  { freshApp with subscribers := [some demoEvent, none] }

/-- App built by configuring key "alpha", storing an event for key
"beta", and adding a rule for key "gamma". -/
def demoScenarioApp : App :=
  (addRule
    (storeEvent (setResponseConfig freshApp "alpha" demoConfig)
      "POST" "/webhook/beta" [] "beta" "body" 5).1
    "gamma" demoRule).1

/-- Sample `storeEvent` argument tuple. -/
def demoInput : StoreInput :=
  { method := "POST", path := "/webhook/x", headers := [], key := "x",
    body := "b", now := 7 }

/-- Sample evaluation environment. -/
def demoEnv : Env := buildEnv demoParseJson "" "POST" []

/-! General lemmas about the sorting relations and the map model. -/

theorem strLtB_iff_lex : ∀ l1 l2, strLtB l1 l2 = true ↔ List.Lex (· < ·) l1 l2
  | [], [] => by
    simp only [strLtB, Bool.false_eq_true, false_iff]
    intro h; cases h
  | [], c :: r => by
    simp only [strLtB, true_iff]
    exact List.Lex.nil
  | c :: r, [] => by
    simp only [strLtB, Bool.false_eq_true, false_iff]
    intro h; cases h
  | c1 :: r1, c2 :: r2 => by
    simp only [strLtB]
    rcases lt_trichotomy c1 c2 with h | h | h
    · simp only [h, if_true, true_iff]
      exact List.Lex.rel h
    · subst h
      simp only [lt_irrefl, if_false]
      rw [strLtB_iff_lex r1 r2]
      exact List.Lex.cons_iff.symm
    · simp only [not_lt_of_gt h, if_false, h, if_true, Bool.false_eq_true, false_iff]
      intro hl
      cases hl with
      | rel h2 => exact absurd h2 (not_lt_of_gt h)
      | cons h2 => exact absurd rfl (ne_of_gt h).symm

theorem strLe_iff (s1 s2 : String) : strLe s1 s2 ↔ s1 ≤ s2 := by
  rw [strLe, strLeB, Bool.not_eq_true', Bool.eq_false_iff]
  constructor
  · intro h
    by_contra hle
    rw [not_le] at hle
    have h2 : List.Lex (· < ·) s2.data s1.data := String.lt_iff_toList_lt.mp hle
    exact h ((strLtB_iff_lex _ _).mpr h2)
  · intro hle h
    have h2 := (strLtB_iff_lex s2.data s1.data).mp h
    have h3 : s2 < s1 := String.lt_iff_toList_lt.mpr h2
    exact absurd hle (not_le_of_lt h3)

instance : IsTotal String strLe :=
  ⟨fun s1 s2 => by
    rw [strLe_iff, strLe_iff]
    exact le_total s1 s2⟩

instance : IsTrans String strLe :=
  ⟨fun s1 s2 s3 h1 h2 => by
    rw [strLe_iff] at *
    exact le_trans h1 h2⟩

instance : IsTotal Rule ruleLE := ⟨fun r1 r2 => Int.le_total r1.priority r2.priority⟩

instance : IsTrans Rule ruleLE := ⟨fun _ _ _ h1 h2 => le_trans h1 h2⟩

theorem mapLookup_mapInsert_self {α : Type} (m : List (String × α)) (k : String) (v : α) :
    mapLookup (mapInsert m k v) k = some v := by
  induction m with
  | nil => simp [mapInsert, mapLookup]
  | cons e rest ih =>
    obtain ⟨k2, v2⟩ := e
    by_cases h : k2 = k
    · simp [mapInsert, mapLookup, h]
    · simp [mapInsert, mapLookup, h, ih]

theorem mapLookup_mapInsert_ne {α : Type} (m : List (String × α)) (k k2 : String) (v : α)
    (h : k2 ≠ k) : mapLookup (mapInsert m k v) k2 = mapLookup m k2 := by
  induction m with
  | nil => simp [mapInsert, mapLookup, Ne.symm h]
  | cons e rest ih =>
    obtain ⟨k3, v3⟩ := e
    by_cases h3 : k3 = k
    · subst h3
      simp [mapInsert, mapLookup, Ne.symm h]
    · simp only [mapInsert, h3, if_false, mapLookup]
      by_cases h4 : k3 = k2 <;> simp [h4, ih]

/-! Claim C3: the response-config fallback chain. -/

/-- C3: `getResponseConfig` never fails and follows the fallback
chain: a configured key returns its own entry; an unconfigured key
returns `getResponseConfig a "default"` when "default" is configured;
otherwise the hardcoded config with body `{"result":"ok"}` and status
200 is returned. -/
theorem getResponseConfig_fallback_chain (a : App) (key : String) :
    (∀ config, mapLookup a.responses key = some config →
      getResponseConfig a key = config) ∧
    (mapLookup a.responses key = none →
      (∃ d, mapLookup a.responses "default" = some d) →
      getResponseConfig a key = getResponseConfig a "default") ∧
    (mapLookup a.responses key = none →
      mapLookup a.responses "default" = none →
      getResponseConfig a key =
        { response := .obj [("result", .str "ok")], responseRaw := "",
          statusCode := 200 }) := by
  refine ⟨?_, ?_, ?_⟩
  · intro config h
    simp [getResponseConfig, h]
  · rintro h ⟨d, hd⟩
    simp [getResponseConfig, h, hd]
  · intro h hd
    simp [getResponseConfig, fallbackConfig, h, hd]

/-- Witness for C3: with "default" configured, an unconfigured key
resolves to the default entry. -/
theorem getResponseConfig_fallback_chain_witness :
    getResponseConfig (setResponseConfig freshApp "default" demoConfig) "missing" =
      getResponseConfig (setResponseConfig freshApp "default" demoConfig) "default" :=
  (getResponseConfig_fallback_chain
    (setResponseConfig freshApp "default" demoConfig) "missing").2.1
    rfl ⟨demoConfig, rfl⟩

/-! Claim C5: nonblocking broadcast over capacity-1 mailboxes. -/

/-- C5: every subscriber mailbox has capacity one (an `Option Event`
buffer, created empty by `addSubscriber`), and `broadcastEvent` leaves
a full mailbox unchanged (the event is dropped for that subscriber
only) while filling every empty mailbox with the event; no queue ever
forms and the subscriber list itself is unchanged in length. -/
theorem broadcastEvent_drop_on_full (a : App) (event : Event) (i : Nat) :
    (broadcastEvent a event).subscribers.length = a.subscribers.length ∧
    (a.subscribers[i]? = some none →
      (broadcastEvent a event).subscribers[i]? = some (some event)) ∧
    (∀ pending, a.subscribers[i]? = some (some pending) →
      (broadcastEvent a event).subscribers[i]? = some (some pending)) ∧
    (addSubscriber a).1.subscribers = a.subscribers ++ [none] := by
  refine ⟨by simp [broadcastEvent], ?_, ?_, rfl⟩
  · intro h
    simp [broadcastEvent, h, trySend]
  · intro pending h
    simp [broadcastEvent, h, trySend]

/-- Witness for C5: broadcasting to one full and one empty mailbox
drops the event at the full one and delivers it to the empty one. -/
theorem broadcastEvent_drop_on_full_witness :
    (broadcastEvent demoSubsApp demoEvent2).subscribers[0]? = some (some demoEvent) ∧
    (broadcastEvent demoSubsApp demoEvent2).subscribers[1]? = some (some demoEvent2) :=
  ⟨(broadcastEvent_drop_on_full demoSubsApp demoEvent2 0).2.2.1 demoEvent rfl,
   (broadcastEvent_drop_on_full demoSubsApp demoEvent2 1).2.1 rfl⟩

/-! Claim C6: update/delete of an existing or nonexistent rule ID. -/

theorem updateList_eq_none (rules : List Rule) (ruleID : String) (updated : Rule)
    (h : ∀ r ∈ rules, r.id ≠ ruleID) : updateList rules ruleID updated = none := by
  induction rules with
  | nil => rfl
  | cons r rest ih =>
    rw [updateList, if_neg (h r (List.mem_cons_self r rest)),
      ih (fun r2 hr => h r2 (List.mem_cons_of_mem r hr))]
    rfl

theorem deleteList_eq_none (rules : List Rule) (ruleID : String)
    (h : ∀ r ∈ rules, r.id ≠ ruleID) : deleteList rules ruleID = none := by
  induction rules with
  | nil => rfl
  | cons r rest ih =>
    rw [deleteList, if_neg (h r (List.mem_cons_self r rest)),
      ih (fun r2 hr => h r2 (List.mem_cons_of_mem r hr))]
    rfl

theorem updateList_eq_some (rules : List Rule) (ruleID : String) (updated : Rule)
    (h : ∃ r ∈ rules, r.id = ruleID) :
    ∃ i, ∃ hi : i < rules.length, (rules.get ⟨i, hi⟩).id = ruleID ∧
      updateList rules ruleID updated =
        some (rules.set i { updated with id := ruleID }) := by
  induction rules with
  | nil => obtain ⟨r, hr, _⟩ := h; cases hr
  | cons r rest ih =>
    by_cases hr : r.id = ruleID
    · exact ⟨0, Nat.succ_pos _, hr, by rw [updateList, if_pos hr]; rfl⟩
    · have h2 : ∃ r2 ∈ rest, r2.id = ruleID := by
        obtain ⟨r2, hmem, hid⟩ := h
        rcases List.mem_cons.mp hmem with rfl | hmem2
        · exact absurd hid hr
        · exact ⟨r2, hmem2, hid⟩
      obtain ⟨i, hi, hid, heq⟩ := ih h2
      exact ⟨i + 1, Nat.succ_lt_succ hi, hid, by rw [updateList, if_neg hr, heq]; rfl⟩

/-- C6: when a rule with the given ID exists in the key's set,
`updateRule` returns true and replaces every field of that rule except
its ID; when no rule with the ID exists, both `updateRule` and
`deleteRule` return false and leave the state completely unchanged. -/
theorem updateRule_deleteRule_spec (a : App) (key ruleID : String) (updated : Rule) :
    ((∃ r ∈ (mapLookup a.rules key).getD [], r.id = ruleID) →
      (updateRule a key ruleID updated).2 = true ∧
      ∃ i, ∃ hi : i < ((mapLookup a.rules key).getD []).length,
        (((mapLookup a.rules key).getD []).get ⟨i, hi⟩).id = ruleID ∧
        mapLookup (updateRule a key ruleID updated).1.rules key =
          some (((mapLookup a.rules key).getD []).set i
            { updated with id := ruleID })) ∧
    ((∀ r ∈ (mapLookup a.rules key).getD [], r.id ≠ ruleID) →
      updateRule a key ruleID updated = (a, false) ∧
      deleteRule a key ruleID = (a, false)) := by
  constructor
  · intro h
    obtain ⟨i, hi, hid, heq⟩ :=
      updateList_eq_some ((mapLookup a.rules key).getD []) ruleID updated h
    refine ⟨by simp [updateRule, heq], i, hi, hid, ?_⟩
    simp [updateRule, heq, mapLookup_mapInsert_self]
  · intro h
    have h1 := updateList_eq_none ((mapLookup a.rules key).getD []) ruleID updated h
    have h2 := deleteList_eq_none ((mapLookup a.rules key).getD []) ruleID h
    exact ⟨by simp [updateRule, h1], by simp [deleteRule, h2]⟩

/-- Witness for C6: on a store holding one rule `rule_1`, updating it
succeeds and rewrites its fields, while updating or deleting the
nonexistent ID `rule_999` returns false and changes nothing. -/
theorem updateRule_deleteRule_spec_witness :
    ((updateRule (addRule freshApp "default" demoRule).1 "default" "rule_1" demoRuleLow).2 = true) ∧
    (updateRule (addRule freshApp "default" demoRule).1 "default" "rule_999" demoRuleLow =
      ((addRule freshApp "default" demoRule).1, false)) ∧
    (deleteRule (addRule freshApp "default" demoRule).1 "default" "rule_999" =
      ((addRule freshApp "default" demoRule).1, false)) := by
  refine ⟨?_, ?_, ?_⟩
  · exact ((updateRule_deleteRule_spec (addRule freshApp "default" demoRule).1
      "default" "rule_1" demoRuleLow).1
      ⟨{ demoRule with id := "rule_1" }, by constructor, rfl⟩).1
  · exact ((updateRule_deleteRule_spec (addRule freshApp "default" demoRule).1
      "default" "rule_999" demoRuleLow).2 (by decide)).1
  · exact ((updateRule_deleteRule_spec (addRule freshApp "default" demoRule).1
      "default" "rule_999" demoRuleLow).2 (by decide)).2

/-! Claims C10, C4 and C7: the evaluation loop never errors, skips
malformed rules, and the body binding of the evaluation context. -/

theorem evalRulesLoop_snd_eq_none {Prog : Type}
    (compile : String → Env → Except String Prog)
    (run : Prog → Env → Except String JVal) (env : Env) (rules : List Rule) :
    (evalRulesLoop compile run env rules).2 = none := by
  induction rules with
  | nil => rfl
  | cons rule rest ih =>
    rw [evalRulesLoop]
    split
    · exact ih
    · split
      · exact ih
      · split
        · exact ih
        · split
          · rfl
          · exact ih

/-- C10: the error component of `evaluateRules` is `none` on every
input and every expression-language implementation: a caller can never
observe a failure from rule evaluation. -/
theorem evaluateRules_error_always_nil (Prog : Type)
    (parseJson : String → Option JVal)
    (compile : String → Env → Except String Prog)
    (run : Prog → Env → Except String JVal)
    (a : App) (key body method : String) (headers : Headers) :
    (evaluateRules parseJson compile run a key body method headers).2 = none :=
  evalRulesLoop_snd_eq_none compile run
    (buildEnv parseJson body method headers) (getRules a key)

/-- C4: a rule whose condition fails to compile, or whose run raises
an evaluation error, is treated as a non-match: the loop continues
with the remaining rules as if the rule were absent, and the
evaluation pass never surfaces an error to the caller. -/
theorem evalRulesLoop_malformed_rule_skipped (Prog : Type)
    (compile : String → Env → Except String Prog)
    (run : Prog → Env → Except String JVal) (env : Env)
    (rule : Rule) (rest : List Rule)
    (h : (∃ e, compile rule.condition env = .error e) ∨
      ∃ prog e, compile rule.condition env = .ok prog ∧ run prog env = .error e) :
    evalRulesLoop compile run env (rule :: rest) =
      evalRulesLoop compile run env rest ∧
    (evalRulesLoop compile run env (rule :: rest)).2 = none := by
  refine ⟨?_, evalRulesLoop_snd_eq_none compile run env (rule :: rest)⟩
  rw [evalRulesLoop]
  by_cases he : rule.enabled
  · simp only [he, Bool.not_true, Bool.false_eq_true, if_false]
    rcases h with ⟨e, hc⟩ | ⟨prog, e, hc, hr⟩
    · simp only [hc]
    · simp only [hc, hr]
  · simp only [Bool.not_eq_true] at he
    simp only [he, Bool.not_false, if_true]

/-- Witness for C4: a rule whose condition does not compile
(`demoCompile` rejects "bad(") is skipped and the loop result equals
the loopresult on the remaining rules. -/
theorem evalRulesLoop_malformed_rule_skipped_witness :
    evalRulesLoop demoCompile demoRun demoEnv
        ({ demoRule with condition := "bad(" } :: [demoRuleLow]) =
      evalRulesLoop demoCompile demoRun demoEnv [demoRuleLow] :=
  (evalRulesLoop_malformed_rule_skipped String demoCompile demoRun demoEnv
    { demoRule with condition := "bad(" } [demoRuleLow]
    (Or.inl ⟨"unexpected token", rfl⟩)).1

/-- Counterexample to C7 as stated: the empty body is not valid JSON
(every faithful parser, like `demoParseJson`, rejects it), yet
`evaluateRules` builds the context with `body` bound to the nil
interface value, not to the raw string "". -/
theorem buildEnv_empty_body_counterexample :
    demoParseJson "" = none ∧
    (buildEnv demoParseJson "" "POST" []).body = JVal.null ∧
    (buildEnv demoParseJson "" "POST" []).body ≠ JVal.str "" :=
  ⟨rfl, rfl, fun h => by cases h⟩

/-- C7 (amended): for every nonempty body that the JSON parser
rejects, the evaluation context binds `body` to the original raw
string; for every nonempty body that parses, to the parsed JSON
value; for the empty body, to the nil value.  `evaluateRules` runs the
rule loop on exactly this context. -/
theorem buildEnv_body_binding (parseJson : String → Option JVal)
    (body method : String) (headers : Headers) :
    (body ≠ "" → parseJson body = none →
      (buildEnv parseJson body method headers).body = JVal.str body) ∧
    (body ≠ "" → ∀ v, parseJson body = some v →
      (buildEnv parseJson body method headers).body = v) ∧
    (body = "" → (buildEnv parseJson body method headers).body = JVal.null) ∧
    (∀ (Prog : Type) (compile : String → Env → Except String Prog)
      (run : Prog → Env → Except String JVal) (a : App) (key : String),
      evaluateRules parseJson compile run a key body method headers =
        evalRulesLoop compile run (buildEnv parseJson body method headers)
          (getRules a key)) := by
  refine ⟨?_, ?_, ?_, fun _ _ _ _ _ => rfl⟩
  · intro h hp
    simp [buildEnv, computeBodyData, h, hp]
  · intro h v hp
    simp [buildEnv, computeBodyData, h, hp]
  · intro h
    simp [buildEnv, computeBodyData, h]

/-- Witness for C7 (amended): the nonempty non-JSON body "oops" is
bound as the raw string, the JSON body "42" as the parsed number, and
the empty body as nil. -/
theorem buildEnv_body_binding_witness :
    (buildEnv demoParseJson "oops" "POST" []).body = JVal.str "oops" ∧
    (buildEnv demoParseJson "42" "POST" []).body = JVal.num 42 ∧
    (buildEnv demoParseJson "" "POST" []).body = JVal.null :=
  ⟨(buildEnv_body_binding demoParseJson "oops" "POST" []).1
      (by decide) rfl,
   (buildEnv_body_binding demoParseJson "42" "POST" []).2.1
      (by decide) (JVal.num 42) rfl,
   (buildEnv_body_binding demoParseJson "" "POST" []).2.2.1 rfl⟩

/-! Claim C1: first-match-wins in ascending priority order. -/

/-- C1: `evaluateRules` considers the rules in the ascending-priority
order delivered by `getRules` (a by-priority-sorted permutation of the
stored set), skips every disabled rule without evaluating its
condition (the result does not depend on such a rule's condition),
returns the response and status code of the first enabled rule whose
condition evaluates to boolean true, and passes over every enabled
rule whose condition evaluates to false or to a non-boolean value
(the loop continues with the remaining rules); in particular, for the
two unconditionally-true enabled rules with priorities [10, 1] the
priority-1 rule's response and status are returned. -/
theorem evaluateRules_first_match_wins :
    (∀ a key, (getRules a key).Pairwise ruleLE ∧
      List.Perm (getRules a key) ((mapLookup a.rules key).getD [])) ∧
    (∀ (Prog : Type) (compile : String → Env → Except String Prog)
      (run : Prog → Env → Except String JVal) (env : Env)
      (rule : Rule) (cond : String) (rest : List Rule),
      rule.enabled = false →
      evalRulesLoop compile run env ({ rule with condition := cond } :: rest) =
        evalRulesLoop compile run env rest) ∧
    (∀ (Prog : Type) (compile : String → Env → Except String Prog)
      (run : Prog → Env → Except String JVal) (env : Env)
      (rule : Rule) (rest : List Rule) (prog : Prog),
      rule.enabled = true → compile rule.condition env = .ok prog →
      run prog env = .ok (.bool true) →
      evalRulesLoop compile run env (rule :: rest) =
        (some { response := rule.response, responseRaw := "",
                statusCode := rule.statusCode }, none)) ∧
    (∀ (Prog : Type) (compile : String → Env → Except String Prog)
      (run : Prog → Env → Except String JVal) (env : Env)
      (rule : Rule) (rest : List Rule) (prog : Prog) (result : JVal),
      rule.enabled = true → compile rule.condition env = .ok prog →
      run prog env = .ok result → result ≠ .bool true →
      evalRulesLoop compile run env (rule :: rest) =
        evalRulesLoop compile run env rest) ∧
    evaluateRules demoParseJson demoCompile demoRun demoTwoRuleApp
        "default" "" "POST" [] =
      (some { response := .str "low", responseRaw := "", statusCode := 201 },
        none) := by
  refine ⟨?_, ?_, ?_, ?_, ?_⟩
  · intro a key
    exact ⟨List.sorted_insertionSort ruleLE _, List.perm_insertionSort ruleLE _⟩
  · intro Prog compile run env rule cond rest he
    rw [evalRulesLoop]
    simp only [he, Bool.not_false, if_true]
  · intro Prog compile run env rule rest prog he hc hr
    rw [evalRulesLoop]
    simp only [he, Bool.not_true, Bool.false_eq_true, if_false, hc, hr]
  · intro Prog compile run env rule rest prog result he hc hr hres
    rw [evalRulesLoop]
    simp only [he, Bool.not_true, Bool.false_eq_true, if_false, hc, hr]
  · rfl

/-- Witness for C1: the first-enabled-true-rule conjunct applied to a
concrete unconditionally-true rule yields its response and status, and
the pass-over conjunct applied to a concrete enabled rule whose
condition evaluates to false skips exactly that rule. -/
theorem evaluateRules_first_match_wins_witness :
    (evalRulesLoop demoCompile demoRun demoEnv [demoRuleHigh] =
      (some { response := .str "high", responseRaw := "", statusCode := 200 },
        none)) ∧
    (evalRulesLoop demoCompile demoRun demoEnv
        ({ demoRuleHigh with condition := "false" } :: [demoRuleLow]) =
      evalRulesLoop demoCompile demoRun demoEnv [demoRuleLow]) :=
  ⟨evaluateRules_first_match_wins.2.2.1 String demoCompile demoRun demoEnv
      demoRuleHigh [] "true" rfl rfl rfl,
   evaluateRules_first_match_wins.2.2.2.1 String demoCompile demoRun demoEnv
      { demoRuleHigh with condition := "false" } [demoRuleLow] "false"
      (JVal.bool false) rfl rfl rfl
      (fun h => Bool.noConfusion (JVal.bool.inj h))⟩

/-! Claim C2: the event log retains the 50 most recent events. -/

theorem storeEvent_events (a : App) (method path : String) (headers : Headers)
    (key body : String) (now : Nat) :
    (storeEvent a method path headers key body now).1.events =
      ((storeEvent a method path headers key body now).2 :: a.events).take
        maxEvents := by
  simp only [storeEvent]
  split
  · rfl
  · next h => exact (List.take_of_length_le (Nat.le_of_not_lt h)).symm

theorem storeMany_length (ins : List StoreInput) :
    ∀ a, (storeMany a ins).2.length = ins.length := by
  induction ins with
  | nil => intro a; rfl
  | cons inp rest ih => intro a; simp only [storeMany, List.length_cons, ih]

theorem take_append_take {α : Type} (n : Nat) (X Y : List α) :
    (X ++ Y.take n).take n = (X ++ Y).take n := by
  rw [List.take_append_eq_append_take, List.take_append_eq_append_take,
    List.take_take]
  rw [Nat.min_eq_left (Nat.sub_le n X.length)]

theorem storeMany_events (ins : List StoreInput) : ∀ a, ins ≠ [] →
    (storeMany a ins).1.events =
      ((storeMany a ins).2.reverse ++ a.events).take maxEvents := by
  induction ins with
  | nil => intro a h; exact absurd rfl h
  | cons inp rest ih =>
    intro a h
    by_cases hr : rest = []
    · subst hr
      simp only [storeMany, List.reverse_cons, List.reverse_nil, List.nil_append,
        List.singleton_append]
      exact storeEvent_events a inp.method inp.path inp.headers inp.key inp.body
        inp.now
    · simp only [storeMany, List.reverse_cons]
      rw [ih _ hr, storeEvent_events]
      rw [List.append_assoc, List.singleton_append]
      exact take_append_take maxEvents _ _

/-- C2: after more than 50 `storeEvent` calls from any starting state,
the event log holds exactly the 50 most recently stored events,
most-recent-first (the reverse of the call-order event list, truncated
to 50), and every call produced an event: store always succeeds. -/
theorem storeEvent_retains_50_most_recent (a : App) (ins : List StoreInput)
    (h : ins.length > 50) :
    (storeMany a ins).1.events = (storeMany a ins).2.reverse.take maxEvents ∧
    (storeMany a ins).1.events.length = maxEvents ∧
    (storeMany a ins).2.length = ins.length ∧
    (∀ (a2 : App) (method path : String) (headers : Headers)
      (key body : String) (now : Nat),
      (storeEvent a2 method path headers key body now).1.events =
        ((storeEvent a2 method path headers key body now).2 ::
          a2.events).take maxEvents) := by
  have hm : maxEvents = 50 := rfl
  have hne : ins ≠ [] := by intro h2; subst h2; simp at h
  have hlen : (storeMany a ins).2.length = ins.length := storeMany_length ins a
  have hev := storeMany_events ins a hne
  have hrevlen : maxEvents ≤ (storeMany a ins).2.reverse.length := by
    rw [List.length_reverse, hlen, hm]; omega
  refine ⟨?_, ?_, hlen, fun a2 m p hs k b now => storeEvent_events a2 m p hs k b now⟩
  · rw [hev, List.take_append_of_le_length hrevlen]
  · rw [hev, List.length_take, List.length_append, List.length_reverse, hlen, hm]
    omega

/-- Witness for C2: 51 identical store calls from the fresh state
leave exactly 50 events in the log. -/
theorem storeEvent_retains_50_most_recent_witness :
    (storeMany freshApp (List.replicate 51 demoInput)).1.events.length =
      maxEvents :=
  (storeEvent_retains_50_most_recent freshApp (List.replicate 51 demoInput)
    (by simp)).2.1

/-! Claim C8: key discovery. -/

/-- C8: `getKeys` returns the sorted-ascending union of the keys of
stored events, configured responses and rule sets, always including
"default"; on the fresh store it is exactly `["default"]`, and after
configuring "alpha", storing an event for "beta" and adding a rule for
"gamma" it is `["alpha", "beta", "default", "gamma"]`. -/
theorem getKeys_sorted_union :
    (∀ a key, key ∈ getKeys a ↔
      (key ∈ a.events.map Event.key ∨ key ∈ a.responses.map Prod.fst ∨
        key ∈ a.rules.map Prod.fst ∨ key = "default")) ∧
    (∀ a, List.Sorted (· ≤ ·) (getKeys a)) ∧
    getKeys freshApp = ["default"] ∧
    getKeys demoScenarioApp = ["alpha", "beta", "default", "gamma"] := by
  refine ⟨?_, ?_, by decide, by decide⟩
  · intro a key
    simp only [getKeys, List.mem_insertionSort, List.mem_dedup, List.mem_append,
      List.mem_singleton]
    tauto
  · intro a
    exact (List.sorted_insertionSort strLe _).imp (fun h => (strLe_iff _ _).mp h)

/-! Claim C9: rule IDs are unique and never reused.  The decimal
rendering `mkRuleID` is proven injective via `decDigits`. -/

theorem digitChar_toNat_sub (d : Nat) (h : d < 10) :
    (Nat.digitChar d).toNat - 48 = d := by
  interval_cases d <;> decide

theorem evalDigits_decDigits (n : Nat) : evalDigits (decDigits n) = n := by
  induction n using Nat.strong_induction_on with
  | _ n ih =>
    rw [decDigits]
    by_cases h : n < 10
    · simp only [h, dif_pos]
      show 0 * 10 + ((Nat.digitChar n).toNat - 48) = n
      rw [digitChar_toNat_sub n h]
      omega
    · simp only [h, dif_neg, not_false_iff]
      rw [evalDigits, List.foldl_append]
      have h1 : n / 10 < n := Nat.div_lt_self (by omega) (by omega)
      have h2 := ih (n / 10) h1
      rw [evalDigits] at h2
      rw [h2]
      show (n / 10) * 10 + ((Nat.digitChar (n % 10)).toNat - 48) = n
      rw [digitChar_toNat_sub (n % 10) (Nat.mod_lt n (by omega))]
      omega

theorem toDigitsCore_eq_decDigits :
    ∀ (fuel n : Nat) (ds : List Char), n < fuel →
      Nat.toDigitsCore 10 fuel n ds = decDigits n ++ ds := by
  intro fuel
  induction fuel with
  | zero => intro n ds h; omega
  | succ fuel ih =>
    intro n ds h
    simp only [Nat.toDigitsCore]
    by_cases h2 : n / 10 = 0
    · have h3 : n < 10 := by omega
      rw [if_pos h2, decDigits]
      simp only [h3, dif_pos]
      rw [Nat.mod_eq_of_lt h3]
      rfl
    · have h3 : ¬n < 10 := by omega
      have h4 : n / 10 < n := Nat.div_lt_self (by omega) (by omega)
      rw [if_neg h2]
      rw [ih (n / 10) (Nat.digitChar (n % 10) :: ds) (by omega)]
      conv_rhs => rw [decDigits]
      simp only [h3, dif_neg, not_false_iff]
      rw [List.append_assoc]
      rfl

theorem natRepr_eq_decDigits (n : Nat) : Nat.repr n = (decDigits n).asString := by
  rw [show Nat.repr n = (Nat.toDigits 10 n).asString from rfl]
  rw [Nat.toDigits, toDigitsCore_eq_decDigits (n + 1) n [] (Nat.lt_succ_self n),
    List.append_nil]

theorem mkRuleID_injective : Function.Injective mkRuleID := by
  intro m n h
  rw [mkRuleID, mkRuleID] at h
  have h2 := congrArg String.data h
  simp only [String.data_append] at h2
  have h3 := List.append_cancel_left h2
  have h4 : (toString m : String) = toString n := String.ext h3
  rw [show (toString m : String) = Nat.repr m from rfl,
    show (toString n : String) = Nat.repr n from rfl,
    natRepr_eq_decDigits, natRepr_eq_decDigits] at h4
  have h5 : decDigits m = decDigits n := by
    have h6 := congrArg String.data h4
    simpa [List.asString] using h6
  have h7 := congrArg evalDigits h5
  rwa [evalDigits_decDigits, evalDigits_decDigits] at h7

theorem applyRuleOp_ruleLastID_le (a : App) (op : RuleOp) :
    a.ruleLastID ≤ (applyRuleOp a op).ruleLastID := by
  cases op with
  | add key rule => exact Nat.le_succ _
  | update key ruleID rule =>
    rw [applyRuleOp, updateRule]
    split <;> exact Nat.le_refl _
  | delete key ruleID =>
    rw [applyRuleOp, deleteRule]
    split <;> exact Nat.le_refl _

theorem assignedIDs_gt (ops : List RuleOp) :
    ∀ a, ∀ id ∈ assignedIDs a ops, ∃ k, a.ruleLastID < k ∧ id = mkRuleID k := by
  induction ops with
  | nil => intro a id h; cases h
  | cons op rest ih =>
    intro a id h
    have hmono := applyRuleOp_ruleLastID_le a op
    cases op with
    | add key rule =>
      rcases List.mem_cons.mp h with rfl | h2
      · exact ⟨a.ruleLastID + 1, Nat.lt_succ_self _, rfl⟩
      · obtain ⟨k, hk, hid⟩ := ih _ id h2
        exact ⟨k, Nat.lt_of_le_of_lt hmono hk, hid⟩
    | update key ruleID rule =>
      obtain ⟨k, hk, hid⟩ := ih _ id h
      exact ⟨k, Nat.lt_of_le_of_lt hmono hk, hid⟩
    | delete key ruleID =>
      obtain ⟨k, hk, hid⟩ := ih _ id h
      exact ⟨k, Nat.lt_of_le_of_lt hmono hk, hid⟩

theorem assignedIDs_nodup (ops : List RuleOp) :
    ∀ a, (assignedIDs a ops).Nodup := by
  induction ops with
  | nil => intro a; exact List.nodup_nil
  | cons op rest ih =>
    intro a
    cases op with
    | add key rule =>
      show (mkRuleID (a.ruleLastID + 1) ::
        assignedIDs (applyRuleOp a (.add key rule)) rest).Nodup
      refine List.Nodup.cons ?_ (ih _)
      intro hmem
      obtain ⟨k, hk, hid⟩ := assignedIDs_gt rest _ _ hmem
      have h2 := mkRuleID_injective hid
      have h3 : (applyRuleOp a (.add key rule)).ruleLastID = a.ruleLastID + 1 := rfl
      omega
    | update key ruleID rule =>
      show (assignedIDs (applyRuleOp a (.update key ruleID rule)) rest).Nodup
      exact ih _
    | delete key ruleID =>
      show (assignedIDs (applyRuleOp a (.delete key ruleID)) rest).Nodup
      exact ih _

theorem updateList_map_id (rules : List Rule) (ruleID : String) (updated : Rule) :
    ∀ rules2, updateList rules ruleID updated = some rules2 →
      rules2.map Rule.id = rules.map Rule.id := by
  induction rules with
  | nil => intro rules2 h; cases h
  | cons r rest ih =>
    intro rules2 h
    rw [updateList] at h
    by_cases hr : r.id = ruleID
    · rw [if_pos hr] at h
      cases h
      simp [hr]
    · rw [if_neg hr] at h
      cases h2 : updateList rest ruleID updated with
      | none => rw [h2] at h; simp at h
      | some rest2 =>
        rw [h2] at h
        simp only [Option.map_some'] at h
        cases h
        simp [ih rest2 h2]

theorem flatten_ids_mapInsert (m : List (String × List Rule)) (key : String)
    (rs rs2 : List Rule) (hlook : mapLookup m key = some rs)
    (hmap : rs2.map Rule.id = rs.map Rule.id) :
    ((mapInsert m key rs2).map (fun e => e.2.map Rule.id)).flatten =
      (m.map (fun e => e.2.map Rule.id)).flatten := by
  induction m with
  | nil => cases hlook
  | cons e rest ih =>
    obtain ⟨k2, rs0⟩ := e
    by_cases h : k2 = key
    · subst h
      rw [mapLookup, if_pos rfl] at hlook
      cases hlook
      rw [mapInsert, if_pos rfl]
      simp only [List.map_cons, List.flatten_cons, hmap]
    · rw [mapLookup, if_neg h] at hlook
      simp only [mapInsert, if_neg h, List.map_cons, List.flatten_cons, ih hlook]

theorem allRuleIDs_updateRule (a : App) (key ruleID : String) (updated : Rule) :
    allRuleIDs (updateRule a key ruleID updated).1 = allRuleIDs a := by
  rw [updateRule]
  cases h : updateList ((mapLookup a.rules key).getD []) ruleID updated with
  | none => rfl
  | some rules2 =>
    cases hlook : mapLookup a.rules key with
    | none =>
      rw [hlook] at h
      simp only [Option.getD_none] at h
      cases h
    | some rs =>
      rw [hlook] at h
      simp only [Option.getD_some] at h
      show allRuleIDs { a with rules := mapInsert a.rules key rules2 } = allRuleIDs a
      rw [allRuleIDs, allRuleIDs]
      exact flatten_ids_mapInsert a.rules key rs rules2 hlook
        (updateList_map_id rs ruleID updated rules2 h)

/-- C9: rule IDs are unique and never reused for the process lifetime:
starting from the fresh state, the IDs assigned by the `addRule` calls
of an arbitrary sequence of add/update/delete operations are pairwise
distinct (in particular an ID freed by a delete is never assigned
again); each `addRule` call derives its ID from the strictly
incremented counter, and an update leaves the stored rule IDs
unchanged. -/
theorem ruleIDs_unique_never_reused :
    (∀ ops : List RuleOp, (assignedIDs freshApp ops).Nodup) ∧
    (∀ a key rule, (addRule a key rule).2.id = mkRuleID (a.ruleLastID + 1) ∧
      (addRule a key rule).1.ruleLastID = a.ruleLastID + 1) ∧
    (∀ a key ruleID updated,
      allRuleIDs (updateRule a key ruleID updated).1 = allRuleIDs a) :=
  ⟨fun ops => assignedIDs_nodup ops freshApp,
   fun _ _ _ => ⟨rfl, rfl⟩,
   allRuleIDs_updateRule⟩

end Hooklab
